import Mathlib

set_option maxRecDepth 100000

/-!
Verification development for the peernet Kademlia DHT node.

The definitions below are a shallow embedding of the C++ sources under
`src/kademlia/` (the authoritative variants per the design notes):
`nodeId.hpp`, `peerInfo.hpp`, `dhtError.hpp`, `kBucket.hpp`,
`routingTable.hpp`, `dht.hpp`, `rpcMessage.hpp`.

Machine bytes are modelled as `Nat` with an explicit `< 256` bound where it
matters; `std::chrono` instants are modelled as `Int`; fallible operations
return `Except` or `Option`; JSON wire values are modelled as an AST
(the textual codec is boost::json, an opaque external per the spec).
-/

/-- Lexicographic strict comparison of byte sequences: the order given by the
defaulted `operator<=>` on `std::array<uint8_t, 20>` used by `NodeId`. -/
def lexLt : List Nat → List Nat → Bool
  | [], [] => false
  | [], _ :: _ => true
  | _ :: _, [] => false
  | a :: as, b :: bs => if a < b then true else if b < a then false else lexLt as bs

/-- The unsigned integer a big-endian byte sequence denotes (the "unsigned
160-bit" reading of a 20-byte id). -/
def beVal : List Nat → Nat :=
  List.foldl (fun acc b => acc * 256 + b) 0

/-- `std::countl_zero` on an 8-bit value: leading zero bits among the 8 bits. -/
def countlZero8 (b : Nat) : Nat :=
  if b < 1 then 8 else if b < 2 then 7 else if b < 4 then 6 else if b < 8 then 5
  else if b < 16 then 4 else if b < 32 then 3 else if b < 64 then 2
  else if b < 128 then 1 else 0

/-- `NodeId` (nodeId.hpp): a 20-byte identifier. The byte array is modelled as
a `List Nat`; well-formedness (length 20, bytes below 256) is carried as
hypotheses where a claim needs it. -/
structure NodeId where
  bytes : List Nat
deriving DecidableEq

/-- `NodeId::zero()` — also the value of a default-constructed `NodeId{}`. -/
def NodeId.zero : NodeId :=
  ⟨List.replicate 20 0⟩

/-- `NodeId::distanceTo`: byte-wise XOR. -/
def NodeId.distanceTo (a b : NodeId) : NodeId :=
  ⟨List.zipWith Nat.xor a.bytes b.bytes⟩

/-- Scan for the first non-zero byte, returning its index and value
(`std::ranges::find_if_not` over the XOR bytes in `logDistance`). -/
def firstNonzeroFrom : List Nat → Nat → Option (Nat × Nat)
  | [], _ => none
  | b :: rest, i => if b = 0 then firstNonzeroFrom rest (i + 1) else some (i, b)

/-- `NodeId::logDistance`: index of the most significant differing bit, `0`
when the ids are equal. -/
def NodeId.logDistance (a b : NodeId) : Nat :=
  let x := (a.distanceTo b).bytes
  match firstNonzeroFrom x 0 with
  | none => 0
  | some (i, byte) => (x.length - i - 1) * 8 + (7 - countlZero8 byte)

/-- `PeerInfo` (peerInfo.hpp). `lastSeen` is a wall-clock instant, modelled as
an `Int` count of seconds. -/
structure PeerInfo where
  ipAddress : String
  port : Nat
  lastSeen : Int
  nodeId : NodeId
  isExpired : Bool
deriving DecidableEq

/-- `PeerInfo::isValid`: non-empty address, positive port, non-zero nodeId. -/
def PeerInfo.isValid (p : PeerInfo) : Bool :=
  decide (p.ipAddress ≠ "") && decide (0 < p.port) &&
    decide (p.nodeId.bytes ≠ NodeId.zero.bytes)

/-- `DHTError` (dhtError.hpp). -/
inductive DHTError where
  | Success
  | PeerNotFound
  | StaleData
  | NetworkError
  | PeerLimitExceeded
  | InvalidPeer
  | PingFailure
  | StorageError
  | LookupFailed
deriving DecidableEq

/-- `KBucket` (kBucket.hpp): bounded list of peers. -/
structure KBucket where
  peers : List PeerInfo
  maxSize : Nat
deriving DecidableEq

instance : Inhabited KBucket := ⟨⟨[], 20⟩⟩

/-- `KBucket::add`. Invalid peer: error. Known nodeId: overwrite the first
matching entry in place. Room left: append at the tail. Full: the source
fires an asynchronous `pingPeer` on the oldest entry and returns success at
once; the synchronous effect on the bucket is none (the completion callback,
which may later overwrite the oldest entry, runs only when the probe
resolves). -/
def KBucket.add (b : KBucket) (peer : PeerInfo) : KBucket × Except DHTError Unit :=
  if ¬ peer.isValid then (b, .error .InvalidPeer)
  else
    match b.peers.findIdx? (fun p => decide (p.nodeId = peer.nodeId)) with
    | some i => ({ b with peers := b.peers.set i peer }, .ok ())
    | none =>
      if b.peers.length < b.maxSize then
        ({ b with peers := b.peers ++ [peer] }, .ok ())
      else
        (b, .ok ())

/-- `KBucket::removeStalePeers`: drop peers with `now - lastSeen >= threshold`. -/
def KBucket.removeStalePeers (b : KBucket) (now staleThreshold : Int) : KBucket :=
  { b with peers := b.peers.filter (fun p => decide (now - p.lastSeen < staleThreshold)) }

/-- `KBucket::find`: linear scan by nodeId. -/
def KBucket.find (b : KBucket) (nodeId : NodeId) : Option PeerInfo :=
  b.peers.find? (fun p => decide (p.nodeId = nodeId))

/-- `KBucket::getAllPeers`. -/
def KBucket.getAllPeers (b : KBucket) : List PeerInfo :=
  b.peers

/-- `KBucket::size`. -/
def KBucket.size (b : KBucket) : Nat :=
  b.peers.length

/-- `RoutingTable` (routingTable.hpp): 160 buckets indexed by log-distance
from `selfNodeId`. -/
structure RoutingTable where
  selfNodeId : NodeId
  buckets : List KBucket
  bucketSize : Nat
deriving DecidableEq

/-- The `RoutingTable` constructor: `m_buckets(160)` default-constructs the
buckets, so each has the default capacity 20; `m_bucketSize` is stored but is
not used to size the buckets. -/
def RoutingTable.new (selfNodeId : NodeId) (bucketSize : Nat) : RoutingTable :=
  ⟨selfNodeId, List.replicate 160 ⟨[], 20⟩, bucketSize⟩

/-- `RoutingTable::addPeer`: dispatch to the bucket at
`logDistance(self, peer.nodeId)`. There is no check against
`peer.nodeId == self` anywhere on this path. -/
def RoutingTable.addPeer (rt : RoutingTable) (peer : PeerInfo) :
    RoutingTable × Except DHTError Unit :=
  let bucketIndex := rt.selfNodeId.logDistance peer.nodeId
  let res := (rt.buckets.getD bucketIndex default).add peer
  ({ rt with buckets := rt.buckets.set bucketIndex res.1 }, res.2)

/-- `RoutingTable::refreshBuckets`: prune stale peers in every bucket. -/
def RoutingTable.refreshBuckets (rt : RoutingTable) (now staleThreshold : Int) :
    RoutingTable :=
  { rt with buckets := rt.buckets.map (fun b => b.removeStalePeers now staleThreshold) }

/-- `RoutingTable::findPeer`: direct bucket lookup via log-distance. -/
def RoutingTable.findPeer (rt : RoutingTable) (nodeId : NodeId) : Option PeerInfo :=
  (rt.buckets.getD (rt.selfNodeId.logDistance nodeId) default).find nodeId

/-- `RoutingTable::getPeerCount`: sum of bucket sizes. -/
def RoutingTable.getPeerCount (rt : RoutingTable) : Nat :=
  (rt.buckets.map KBucket.size).sum

/-- The strict comparator passed to `partial_sort` in
`RoutingTable::findClosestPeers`: XOR distance to `target`, compared with the
lexicographic byte order of `NodeId`. -/
def distLtB (target : NodeId) (a b : PeerInfo) : Bool :=
  lexLt (a.nodeId.distanceTo target).bytes (b.nodeId.distanceTo target).bytes

/-- The candidate-gathering loop of `RoutingTable::findClosestPeers`:
`for (offset = 0; closestPeers.size() < k && offset < buckets.size(); ++offset)`
appending `buckets[start+offset]` then, for `offset > 0 && start >= offset`,
`buckets[start-offset]`. The loop runs at most `buckets.length` times (each
iteration increments `offset`, and the loop stops once
`offset >= buckets.length`), which the `fuel` argument makes structural. -/
def gatherClosest (buckets : List KBucket) (startBucket k : Nat) :
    Nat → Nat → List PeerInfo → List PeerInfo
  | _, 0, acc => acc
  | off, fuel + 1, acc =>
    if acc.length < k ∧ off < buckets.length then
      let acc1 :=
        if startBucket + off < buckets.length then
          acc ++ (buckets.getD (startBucket + off) default).getAllPeers
        else acc
      let acc2 :=
        if 0 < off ∧ off ≤ startBucket then
          acc1 ++ (buckets.getD (startBucket - off) default).getAllPeers
        else acc1
      gatherClosest buckets startBucket k (off + 1) fuel acc2
    else acc

/-- `RoutingTable::findClosestPeers`: gather candidates expanding outward from
the target's bucket, order them by XOR distance to `target`, keep the first
`k`. The source's `partial_sort` + `resize(min(k, n))` leaves the first
`min(k, n)` elements equal to the `min(k, n)` smallest under the comparator in
non-decreasing order (ties in an unspecified order); it is modelled as a full
sort followed by `take k`. -/
def RoutingTable.findClosestPeers (rt : RoutingTable) (target : NodeId) (k : Nat) :
    List PeerInfo :=
  let startBucket := rt.selfNodeId.logDistance target
  let closestPeers := gatherClosest rt.buckets startBucket k 0 rt.buckets.length []
  (closestPeers.mergeSort (fun a b => ! distLtB target b a)).take k

/-- `DHT::Config` (dht.hpp). Durations in seconds, as `Int`. -/
structure DHTConfig where
  refreshInterval : Int
  staleThreshold : Int
  maxPeers : Nat
  k : Nat
deriving DecidableEq

/-- `DHT` (dht.hpp): the facade over the routing table. The background
refresh thread is not part of the state; `refresh` below is the direct call. -/
structure DHT where
  routingTable : RoutingTable
  config : DHTConfig
deriving DecidableEq

/-- The `DHT` constructor. -/
def DHT.new (selfNodeId : NodeId) (config : DHTConfig) : DHT :=
  ⟨RoutingTable.new selfNodeId config.k, config⟩

/-- `DHT::addPeer`: reject when `getPeerCount() >= maxPeers`, otherwise stamp
`lastSeen = now`, clear `isExpired`, and forward to the routing table.
`now` is the wall-clock instant of the call. -/
def DHT.addPeer (d : DHT) (now : Int) (peer : PeerInfo) : DHT × Except DHTError Unit :=
  if d.config.maxPeers ≤ d.routingTable.getPeerCount then
    (d, .error .PeerLimitExceeded)
  else
    let newPeer := { peer with lastSeen := now, isExpired := false }
    let res := d.routingTable.addPeer newPeer
    ({ d with routingTable := res.1 }, res.2)

/-- `DHT::getPeer`. -/
def DHT.getPeer (d : DHT) (nodeId : NodeId) : Option PeerInfo :=
  d.routingTable.findPeer nodeId

/-- `DHT::findClosestPeers`; the source's default argument `k = 0` selects
`config.k` (`k ? k : m_config.k`). -/
def DHT.findClosestPeers (d : DHT) (target : NodeId) (k : Nat) : List PeerInfo :=
  d.routingTable.findClosestPeers target (if k = 0 then d.config.k else k)

/-- `DHT::getPeerCount`. -/
def DHT.getPeerCount (d : DHT) : Nat :=
  d.routingTable.getPeerCount

/-- `DHT::refresh`: prune with the configured stale threshold, at instant `now`. -/
def DHT.refresh (d : DHT) (now : Int) : DHT :=
  { d with routingTable := d.routingTable.refreshBuckets now d.config.staleThreshold }

/-- `getSelfNodeId` as used by rpcMessage.hpp: the node's own id, which the
facade holds as the routing table's `m_selfNodeId`. -/
def DHT.getSelfNodeId (d : DHT) : NodeId :=
  d.routingTable.selfNodeId

/-- `KademliaRPC::RPCMessage::Type` (rpcMessage.hpp); named `MsgType` here
because `Type` is a Lean universe keyword. -/
inductive MsgType where
  | PING
  | STORE
  | FIND_NODE
  | FIND_VALUE
deriving DecidableEq

/-- The `static_cast<int>` of a message type when serializing. -/
def MsgType.toInt : MsgType → Int
  | .PING => 0
  | .STORE => 1
  | .FIND_NODE => 2
  | .FIND_VALUE => 3

/-- The `static_cast<RPCMessage::Type>` of a received integer. For values
other than 0..3 the cast yields no valid enumerator and the dispatch switch
matches nothing; modelled as `none` (serialization only ever emits 0..3). -/
def MsgType.ofInt (i : Int) : Option MsgType :=
  if i = 0 then some .PING
  else if i = 1 then some .STORE
  else if i = 2 then some .FIND_NODE
  else if i = 3 then some .FIND_VALUE
  else none

/-- `KademliaRPC::RPCMessage`. -/
structure RPCMessage where
  type : MsgType
  sender : NodeId
  target : NodeId
  value : String
  closestNodes : List PeerInfo
deriving DecidableEq

/-- A JSON value, as built and consumed through boost::json in
rpcMessage.hpp. The textual codec (`serialize` / `parse`) is boost's and is
out of scope per the spec; messages are modelled at this AST level. -/
inductive Json where
  | str : String → Json
  | num : Int → Json
  | arr : List Json → Json
  | obj : List (String × Json) → Json

/-- Hex digit characters as produced by `std::format("{:02x}", byte)`. -/
def hexDigit (n : Nat) : Char :=
  Char.ofNat (if n < 10 then 48 + n else 87 + n)

/-- Two lowercase hex characters for one byte. -/
def byteToHex (b : Nat) : List Char :=
  [hexDigit (b / 16), hexDigit (b % 16)]

/-- Hex-encode a byte list, two characters per byte, in order — the
`result += format("{:02x}", byte)` loop of `NodeId::toString`. -/
def hexEncode : List Nat → List Char
  | [] => []
  | b :: rest => byteToHex b ++ hexEncode rest

/-- `NodeId::toString`: 40 lowercase hex characters, big-endian. -/
def NodeId.toString (id : NodeId) : String :=
  String.mk (hexEncode id.bytes)

/-- Value of one hex character, lowercase digits only. -/
def hexVal (c : Char) : Option Nat :=
  if 48 ≤ c.toNat ∧ c.toNat ≤ 57 then some (c.toNat - 48)
  else if 97 ≤ c.toNat ∧ c.toNat ≤ 102 then some (c.toNat - 87)
  else none

/-- Decode pairs of hex characters into bytes. -/
def hexToBytes : List Char → Option (List Nat)
  | [] => some []
  | hi :: lo :: rest => do
    let h ← hexVal hi
    let l ← hexVal lo
    let bs ← hexToBytes rest
    pure ((h * 16 + l) :: bs)
  | [_] => none

/-- Modelled from the spec: `NodeId::fromString` is called by
`KademliaRPC::startReceiving` but its definition is not among the sources;
the spec fixes the encoding as "40 lowercase hex characters, big-endian", so
the decoder accepts exactly such strings. -/
def NodeId.fromString (s : String) : Option NodeId :=
  if s.data.length = 40 then (hexToBytes s.data).map NodeId.mk else none

/-- One closest-node entry as serialized by `KademliaRPC::sendMessage`: only
`ip`, `port` and `nodeId` are written; `lastSeen` and `isExpired` are not
transmitted. -/
def peerToJson (p : PeerInfo) : Json :=
  .obj [("ip", .str p.ipAddress), ("port", .num p.port), ("nodeId", .str p.nodeId.toString)]

/-- The JSON object built by `KademliaRPC::sendMessage`: `type`, `sender`,
`target` always; `value` only when non-empty; `closestNodes` only when
non-empty. -/
def serializeMsg (msg : RPCMessage) : Json :=
  .obj (
    [("type", .num msg.type.toInt),
     ("sender", .str msg.sender.toString),
     ("target", .str msg.target.toString)]
    ++ (if msg.value = "" then [] else [("value", .str msg.value)])
    ++ (if msg.closestNodes = [] then []
        else [("closestNodes", .arr (msg.closestNodes.map peerToJson))]))

/-- Key lookup in a JSON object. -/
def Json.lookup (j : Json) (key : String) : Option Json :=
  match j with
  | .obj kvs => (kvs.find? (fun kv => decide (kv.1 = key))).map (fun kv => kv.2)
  | _ => none

/-- `as_string`: anything else throws, modelled as `none`. -/
def Json.asStr : Json → Option String
  | .str s => some s
  | _ => none

/-- `as_int64`: anything else throws, modelled as `none`. -/
def Json.asInt : Json → Option Int
  | .num n => some n
  | _ => none

/-- `as_array`: anything else throws, modelled as `none`. -/
def Json.asArr : Json → Option (List Json)
  | .arr l => some l
  | _ => none

/-- One closest-node entry as parsed by `KademliaRPC::startReceiving`:
`ip`, `port` (an int64 converted to `uint16_t`, i.e. reduced mod 2^16) and
`nodeId` are read; `lastSeen` and `isExpired` keep the defaults of the
freshly constructed `PeerInfo` (epoch, `false`). A missing or mistyped field
throws, discarding the whole message. -/
def parsePeer (j : Json) : Option PeerInfo := do
  let ip ← (j.lookup "ip").bind Json.asStr
  let port ← (j.lookup "port").bind Json.asInt
  let nidStr ← (j.lookup "nodeId").bind Json.asStr
  let nodeId ← NodeId.fromString nidStr
  pure ⟨ip, (port % 65536).toNat, 0, nodeId, false⟩

/-- The message parser in `KademliaRPC::startReceiving`: `type`, `sender`,
`target` are required; `value` and `closestNodes` are read only when present
and default to `""` and `[]` otherwise. Any exception (missing key, wrong
type, malformed id) discards the message: `none`. -/
def parseMsg (j : Json) : Option RPCMessage := do
  let t ← (j.lookup "type").bind Json.asInt
  let type ← MsgType.ofInt t
  let senderStr ← (j.lookup "sender").bind Json.asStr
  let sender ← NodeId.fromString senderStr
  let targetStr ← (j.lookup "target").bind Json.asStr
  let target ← NodeId.fromString targetStr
  let value ← match j.lookup "value" with
    | none => some ""
    | some v => v.asStr
  let closestNodes ← match j.lookup "closestNodes" with
    | none => some ([] : List PeerInfo)
    | some v => v.asArr.bind (fun l => l.mapM parsePeer)
  pure ⟨type, sender, target, value, closestNodes⟩

/-- The state of the RPC endpoint (`KademliaRPC`): the local key-value store
and the DHT facade it holds a reference to. The socket and io context are
transport, out of scope. -/
structure KademliaRPC where
  localStore : List (NodeId × String)
  dht : DHT

/-- Lookup in the local store (`m_localStore.find`). -/
def storeGet (store : List (NodeId × String)) (key : NodeId) : Option String :=
  (store.find? (fun kv => decide (kv.1 = key))).map (fun kv => kv.2)

/-- `m_localStore[key] = value`: overwrite or insert. -/
def storePut (store : List (NodeId × String)) (key : NodeId) (v : String) :
    List (NodeId × String) :=
  if (store.find? (fun kv => decide (kv.1 = key))).isSome then
    store.map (fun kv => if kv.1 = key then (key, v) else kv)
  else
    store ++ [(key, v)]

/-- `KademliaRPC::respondToPing`: the reply is
`RPCMessage{Type::PING, NodeId{}, msg.sender, "", {}}` — the sender field is
a default-constructed `NodeId{}`, i.e. the all-zero id, not the node's own id. -/
def KademliaRPC.respondToPing (_st : KademliaRPC) (msg : RPCMessage) : RPCMessage :=
  ⟨.PING, NodeId.zero, msg.sender, "", []⟩

/-- `KademliaRPC::storeValue`: store `value` under `target`. -/
def KademliaRPC.storeValue (st : KademliaRPC) (msg : RPCMessage) : KademliaRPC :=
  { st with localStore := storePut st.localStore msg.target msg.value }

/-- `KademliaRPC::respondToFindNode`: closest peers to `target` (default `k`). -/
def KademliaRPC.respondToFindNode (st : KademliaRPC) (msg : RPCMessage) : RPCMessage :=
  ⟨.FIND_NODE, st.dht.getSelfNodeId, msg.target, "", st.dht.findClosestPeers msg.target 0⟩

/-- `KademliaRPC::respondToFindValue`: value when stored locally, closest
peers otherwise. -/
def KademliaRPC.respondToFindValue (st : KademliaRPC) (msg : RPCMessage) : RPCMessage :=
  match storeGet st.localStore msg.target with
  | some v => ⟨.FIND_VALUE, st.dht.getSelfNodeId, msg.target, v, []⟩
  | none => ⟨.FIND_VALUE, st.dht.getSelfNodeId, msg.target, "",
      st.dht.findClosestPeers msg.target 0⟩

/-- `KademliaRPC::processMessage`: dispatch on the message type. STORE keeps
the value and sends nothing; the other three produce a reply. Nothing on this
path touches the routing table. -/
def KademliaRPC.processMessage (st : KademliaRPC) (msg : RPCMessage) :
    KademliaRPC × Option RPCMessage :=
  match msg.type with
  | .PING => (st, some (st.respondToPing msg))
  | .STORE => (st.storeValue msg, none)
  | .FIND_NODE => (st, some (st.respondToFindNode msg))
  | .FIND_VALUE => (st, some (st.respondToFindValue msg))

/-! Concrete instances used by the claim theorems and witnesses below. -/

/-- The id with top byte 1: `NodeId(bytes=[1,0,...,0])`. -/
def idOne : NodeId := ⟨1 :: List.replicate 19 0⟩

/-- The id with top byte 2: `NodeId(bytes=[2,0,...,0])`. -/
def idTwo : NodeId := ⟨2 :: List.replicate 19 0⟩

/-- The default `DHT::Config`. -/
def defaultCfg : DHTConfig := ⟨60, 300, 1000, 20⟩

/-- A valid peer carrying the node's own id `idOne`. -/
def selfPeer : PeerInfo := ⟨"10.0.0.1", 1, 0, idOne, false⟩

/-- An id whose only non-zero byte is the last: log-distance from zero is
`floor(log2 b)` of that byte. -/
def tailId (b : Nat) : NodeId := ⟨List.replicate 19 0 ++ [b]⟩

/-- A valid peer with id `tailId b`. -/
def tailPeer (b : Nat) : PeerInfo := ⟨"10.0.0.2", 1, 0, tailId b, false⟩

/-- Twenty valid peers whose ids all fall in bucket 7 of a table whose self
id is zero (last byte 128..147, so the top set bit is bit 7). -/
def bucket7Peers : List PeerInfo := (List.range 20).map (fun i => tailPeer (128 + i))

/-- A routing table (self id zero) whose bucket 7 is full: twenty peers at
capacity 20. Reachable by twenty `addPeer` calls on a fresh table. -/
def fullTable : RoutingTable :=
  ⟨NodeId.zero, (List.replicate 160 (⟨[], 20⟩ : KBucket)).set 7 ⟨bucket7Peers, 20⟩, 20⟩

/-- A further valid peer that also falls in bucket 7 (last byte 200). -/
def overflowPeer : PeerInfo := tailPeer 200

/-- Two peers and an LRU-ordered bucket holding them (`lastSeen` 0 then 1). -/
def peerA : PeerInfo := ⟨"10.0.0.3", 1, 0, tailId 130, false⟩

/-- The more recently seen of the two bucket occupants. -/
def peerB : PeerInfo := ⟨"10.0.0.4", 1, 1, tailId 131, false⟩

/-- The re-observed `peerA`: same nodeId, fresher `lastSeen`. -/
def peerA2 : PeerInfo := ⟨"10.0.0.3", 1, 5, tailId 130, false⟩

/-- A bucket holding `[peerA, peerB]` in LRU order, far from capacity. -/
def pairBucket : KBucket := ⟨[peerA, peerB], 20⟩

/-- A config with `staleThreshold = 1` second. -/
def staleCfg : DHTConfig := ⟨60, 1, 1000, 20⟩

/-- A valid peer whose `lastSeen` is 5 seconds before the instant 100 at
which it will be added. -/
def stalePeer : PeerInfo := ⟨"10.0.0.5", 1, 95, idTwo, false⟩

/-- An RPC endpoint over a fresh DHT whose own id is `idOne`. -/
def freshRpc : KademliaRPC := ⟨[], DHT.new idOne defaultCfg⟩

/-- A well-formed inbound PING from the (valid, non-zero) id `idTwo`. -/
def pingMsg : RPCMessage := ⟨.PING, idTwo, idOne, "", []⟩

/-- A message whose single closest-node entry carries `lastSeen = 5`. -/
def tripMsg : RPCMessage := ⟨.PING, NodeId.zero, NodeId.zero, "", [⟨"a", 1, 5, idOne, false⟩]⟩

/-- A message whose closest-node entry has the transient fields at their
defaults (`lastSeen = 0`, `isExpired = false`). -/
def okTripMsg : RPCMessage := ⟨.FIND_VALUE, idOne, idTwo, "hello", [⟨"a", 1, 0, idOne, false⟩]⟩

/-- A DHT with `maxPeers = 1` holding exactly one peer, built by an actual
`addPeer` run. -/
def capDht : DHT := ((DHT.new idOne ⟨60, 300, 1, 20⟩).addPeer 0 (tailPeer 130)).1

/-- A routing table (self id zero) with one peer in bucket 7 and one in
bucket 0, placed at the indices `addPeer` would choose. -/
def smallTable : RoutingTable :=
  ⟨NodeId.zero,
   ((List.replicate 160 (⟨[], 20⟩ : KBucket)).set 7 ⟨[tailPeer 128], 20⟩).set 0
     ⟨[tailPeer 1], 20⟩,
   20⟩

/-! Helper lemmas. -/

/-- Setting an index to the value it already holds leaves the list unchanged. -/
theorem set_getElem?_self {α : Type} : ∀ (l : List α) (i : Nat) (v : α),
    l[i]? = some v → l.set i v = l
  | [], i, v, h => by simp at h
  | a :: l, 0, v, h => by simp_all
  | a :: l, i + 1, v, h => by
    simp only [List.getElem?_cons_succ] at h
    simp [List.set_cons_succ, set_getElem?_self l i v h]

/-- Overwriting the first entry whose nodeId matches the incoming peer's with
that peer leaves the list of nodeIds unchanged. -/
theorem map_nodeId_set_of_findIdx (l : List PeerInfo) (peer : PeerInfo) (i : Nat)
    (h : l.findIdx? (fun p => decide (p.nodeId = peer.nodeId)) = some i) :
    (l.set i peer).map PeerInfo.nodeId = l.map PeerInfo.nodeId := by
  rw [List.findIdx?_eq_some_iff_getElem] at h
  obtain ⟨hi, hp, -⟩ := h
  rw [List.map_set]
  apply set_getElem?_self
  simp only [decide_eq_true_eq] at hp
  rw [List.getElem?_map, List.getElem?_eq_getElem hi]
  simp [hp]

/-! Claim theorems. -/

/-- C1. The claim says `addPeer` rejects a peer whose nodeId equals the
table's own id and never stores it. The code has no such guard: on a fresh
DHT whose own id is `idOne`, adding the valid peer `selfPeer` (whose nodeId
is `idOne`) succeeds, and `getPeer idOne` then returns that peer — the
node's own id is stored in bucket 0. -/
theorem addPeer_stores_self_nodeId :
    ((DHT.new idOne defaultCfg).addPeer 0 selfPeer).2 = Except.ok () ∧
      ((DHT.new idOne defaultCfg).addPeer 0 selfPeer).1.getPeer idOne = some selfPeer :=
  ⟨rfl, rfl⟩

/-- C2. The claim says a successful `addPeer(p)` makes `findPeer(p.nodeId)`
return a peer with the same nodeId immediately afterwards, the full-bucket
probe path included. On `fullTable` (bucket 7 at capacity), adding the valid
`overflowPeer` returns success, yet `findPeer` of its nodeId returns nothing:
the source fires an asynchronous probe and drops the new peer silently, the
exact behavior the spec's design notes call a source bug. -/
theorem fullBucket_add_ok_but_peer_not_found :
    (fullTable.addPeer overflowPeer).2 = Except.ok () ∧
      (fullTable.addPeer overflowPeer).1.findPeer overflowPeer.nodeId = none :=
  ⟨rfl, rfl⟩

/-- C3 counterexample. The claim says re-adding a known nodeId replaces the
entry and moves it to the tail (MRU). On the LRU-ordered bucket
`[peerA, peerB]` (lastSeen 0 then 1), adding `peerA2` (same nodeId as
`peerA`, lastSeen 5) yields `[peerA2, peerB]`: the entry is replaced at its
old position, not moved to the tail, and the order invariant
(least-recently-seen first) is broken. -/
theorem add_duplicate_not_moved_to_tail :
    (pairBucket.add peerA2).1.peers = [peerA2, peerB] ∧
      (pairBucket.add peerA2).1.peers ≠ [peerB, peerA2] :=
  ⟨rfl, by decide⟩

/-- C3 amended: for a valid peer whose nodeId already occurs in the bucket
(first match at index `i`), `add` succeeds and replaces that entry in place —
`peers.set i peer` — so every entry keeps its position and the sequence of
nodeIds is unchanged; the entry is not moved to the tail. -/
theorem add_duplicate_replaces_in_place (b : KBucket) (peer : PeerInfo) (i : Nat)
    (hv : peer.isValid = true)
    (hidx : b.peers.findIdx? (fun p => decide (p.nodeId = peer.nodeId)) = some i) :
    (b.add peer).2 = Except.ok () ∧
      (b.add peer).1.peers = b.peers.set i peer ∧
      (b.add peer).1.peers.map PeerInfo.nodeId = b.peers.map PeerInfo.nodeId := by
  have hmap := map_nodeId_set_of_findIdx b.peers peer i hidx
  simp only [KBucket.add, hv, hidx, Bool.not_eq_true, not_false_iff]
  simp [hmap]

/-- Witness for the C3 amended theorem at the concrete bucket. -/
theorem add_duplicate_replaces_in_place_witness :
    (pairBucket.add peerA2).2 = Except.ok () ∧
      (pairBucket.add peerA2).1.peers = pairBucket.peers.set 0 peerA2 ∧
      (pairBucket.add peerA2).1.peers.map PeerInfo.nodeId =
        pairBucket.peers.map PeerInfo.nodeId :=
  add_duplicate_replaces_in_place pairBucket peerA2 0 (by decide) (by decide)

/-- C4. The claim (and the repo's own `StalePeerRemoval` test) says: add one
peer with `lastSeen = now - 5 s` under `staleThreshold = 1 s`, call
`refresh()`, and `getPeer` returns empty. The facade stamps `lastSeen = now`
before forwarding, so at `now = 100` the stored copy of `stalePeer`
(provided `lastSeen = 95`) carries `lastSeen = 100`; `refresh` at 100 sees
age `0 < 1` and keeps it, and `getPeer` returns the peer instead of empty. -/
theorem stale_peer_survives_refresh :
    (((DHT.new idOne staleCfg).addPeer 100 stalePeer).1.refresh 100).getPeer idTwo =
        some ⟨"10.0.0.5", 1, 100, idTwo, false⟩ ∧
      (((DHT.new idOne staleCfg).addPeer 100 stalePeer).1.refresh 100).getPeer idTwo ≠
        none :=
  ⟨rfl, by decide⟩

/-- C5 counterexample. The claim says a PING reply's sender field equals the
local node's own id. The endpoint `freshRpc` has own id `idOne`, yet the
reply to `pingMsg` carries the default-constructed zero id as sender. -/
theorem ping_reply_sender_not_self :
    (freshRpc.processMessage pingMsg).2 = some ⟨.PING, NodeId.zero, idTwo, "", []⟩ ∧
      NodeId.zero ≠ freshRpc.dht.getSelfNodeId :=
  ⟨rfl, by decide⟩

/-- C5 amended: for every received PING message `m`, the reply is a PING whose
sender field is the all-zero default-constructed NodeId (not the local node's
own id) and whose target field equals `m.sender`; the endpoint state is
unchanged. -/
theorem ping_reply_sender_is_zero (st : KademliaRPC) (msg : RPCMessage)
    (h : msg.type = .PING) :
    (st.processMessage msg).2 = some ⟨.PING, NodeId.zero, msg.sender, "", []⟩ ∧
      (st.processMessage msg).1 = st := by
  simp [KademliaRPC.processMessage, h, KademliaRPC.respondToPing]

/-- Witness for the C5 amended theorem at a concrete endpoint and message. -/
theorem ping_reply_sender_is_zero_witness :
    (freshRpc.processMessage pingMsg).2 = some ⟨.PING, NodeId.zero, pingMsg.sender, "", []⟩ ∧
      (freshRpc.processMessage pingMsg).1 = freshRpc :=
  ping_reply_sender_is_zero freshRpc pingMsg rfl

/-- C6 counterexample. The claim says every well-formed inbound message causes
the sender, rebuilt as a valid `PeerInfo` with `lastSeen = now`, to be offered
to `routingTable.addPeer` before dispatch. Processing the well-formed
`pingMsg` (valid non-zero sender `idTwo`) on an endpoint over an empty table
leaves the table empty and the sender unknown — were the claim true, the add
would have succeeded and `getPeer idTwo` would find the sender. -/
theorem sender_not_added_on_receive :
    (freshRpc.processMessage pingMsg).1.dht.getPeer idTwo = none ∧
      (freshRpc.processMessage pingMsg).1.dht.getPeerCount = 0 :=
  ⟨rfl, rfl⟩

/-- C6 amended: the receive path never offers the sender to the routing
table — processing any message, of any of the four types, leaves the DHT
component (and so the routing table) of the endpoint state unchanged;
messages are dispatched directly to their type-specific handlers. -/
theorem processMessage_preserves_dht (st : KademliaRPC) (msg : RPCMessage) :
    (st.processMessage msg).1.dht = st.dht := by
  rcases msg with ⟨t, s, tg, v, cn⟩
  cases t <;> rfl

/-- C10. Whenever the stored peer count has reached `maxPeers`,
`DHT::addPeer` returns `PeerLimitExceeded` for every incoming peer — the
global capacity check runs before validation and before the duplicate-update
path, so even a peer already present (whose add would not grow the table) is
rejected. -/
theorem addPeer_at_capacity_rejects (d : DHT) (now : Int) (peer : PeerInfo)
    (h : d.getPeerCount = d.config.maxPeers) :
    d.addPeer now peer = (d, Except.error DHTError.PeerLimitExceeded) := by
  have hle : d.config.maxPeers ≤ d.routingTable.getPeerCount := le_of_eq h.symm
  simp [DHT.addPeer, hle]

/-- Witness for C10: `capDht` holds exactly its `maxPeers = 1` peers; re-adding
the very peer it already stores is rejected with `PeerLimitExceeded`. -/
theorem addPeer_at_capacity_rejects_witness :
    capDht.addPeer 5 (tailPeer 130) = (capDht, Except.error DHTError.PeerLimitExceeded) :=
  addPeer_at_capacity_rejects capDht 5 (tailPeer 130) (by decide)

/-- XOR of a byte list with itself is all zeros. -/
theorem zipWith_xor_self : ∀ l : List Nat,
    List.zipWith Nat.xor l l = List.replicate l.length 0
  | [] => rfl
  | b :: l => by
    simp only [List.zipWith_cons_cons, List.length_cons, List.replicate_succ]
    rw [zipWith_xor_self l]
    have hx : Nat.xor b b = 0 := Nat.xor_self b
    rw [hx]

/-- Scanning an all-zero list finds no non-zero byte. -/
theorem firstNonzeroFrom_replicate_zero : ∀ (n i : Nat),
    firstNonzeroFrom (List.replicate n 0) i = none
  | 0, _ => rfl
  | n + 1, i => by simp [List.replicate, firstNonzeroFrom, firstNonzeroFrom_replicate_zero n]

/-- C8. `logDistance(a,b)` scans the XOR bytes from the most significant for
the first non-zero byte `B` at index `i` and yields
`(19 - i) * 8 + (7 - countLeadingZerosOfByte B)`; when `a = b` it yields `0`;
and for `[1,0,...,0]` against `[2,0,...,0]` it yields `153`. -/
theorem logDistance_spec :
    (∀ a b : NodeId, a.bytes.length = 20 → b.bytes.length = 20 →
      ∀ i B, firstNonzeroFrom (a.distanceTo b).bytes 0 = some (i, B) →
        a.logDistance b = (19 - i) * 8 + (7 - countlZero8 B)) ∧
    (∀ a : NodeId, a.logDistance a = 0) ∧
    idOne.logDistance idTwo = 153 := by
  refine ⟨?_, ?_, rfl⟩
  · intro a b ha hb i B h
    have hx : (a.distanceTo b).bytes.length = 20 := by
      simp [NodeId.distanceTo, ha, hb]
    simp only [NodeId.logDistance, h, hx]
    have : 20 - i - 1 = 19 - i := by omega
    rw [this]
  · intro a
    simp only [NodeId.logDistance, NodeId.distanceTo, zipWith_xor_self,
      firstNonzeroFrom_replicate_zero]

/-- Witness for C8 at the concrete pair from the spec scenario: the first
non-zero XOR byte is `3` at index `0`, giving `19 * 8 + (7 - 6) = 153`. -/
theorem logDistance_spec_witness :
    idOne.logDistance idTwo = (19 - 0) * 8 + (7 - countlZero8 3) :=
  logDistance_spec.1 idOne idTwo (by decide) (by decide) 0 3 (by decide)

/-- Decoding a hex digit produced by `hexDigit` recovers the value. -/
theorem hexVal_hexDigit : ∀ n, n < 16 → hexVal (hexDigit n) = some n := by decide

/-- Hex-decoding inverts hex-encoding on bounded bytes. -/
theorem hexToBytes_hexEncode : ∀ l : List Nat, (∀ b ∈ l, b < 256) →
    hexToBytes (hexEncode l) = some l
  | [], _ => rfl
  | b :: l, h => by
    have hb : b < 256 := h b (List.mem_cons_self b l)
    have hdiv : b / 16 < 16 := by omega
    have hmod : b % 16 < 16 := by omega
    have hrest := hexToBytes_hexEncode l (fun x hx => h x (List.mem_cons_of_mem b hx))
    simp only [hexEncode, byteToHex, List.cons_append, List.nil_append, hexToBytes,
      hexVal_hexDigit _ hdiv, hexVal_hexDigit _ hmod, hrest, Option.bind_eq_bind,
      Option.some_bind]
    have : b / 16 * 16 + b % 16 = b := by omega
    rw [this]
    simp [hrest]

/-- The hex encoding of a byte list has twice its length. -/
theorem length_hexEncode : ∀ l : List Nat,
    (hexEncode l).length = 2 * l.length
  | [] => rfl
  | b :: l => by
    simp only [hexEncode, List.length_append, length_hexEncode l,
      byteToHex, List.length_cons, List.length_nil]
    omega

/-- `fromString` inverts `toString` on well-formed 20-byte ids. -/
theorem fromString_toString (id : NodeId) (hlen : id.bytes.length = 20)
    (hb : ∀ b ∈ id.bytes, b < 256) :
    NodeId.fromString id.toString = some id := by
  simp only [NodeId.fromString, NodeId.toString, String.data]
  rw [length_hexEncode, hlen]
  simp only [reduceIte, hexToBytes_hexEncode id.bytes hb, Option.map_some']

/-- Parsing one serialized closest-node entry recovers it, provided its
transient fields (`lastSeen`, `isExpired`) are at the defaults that
deserialization produces and its id and port are well-formed. -/
theorem parsePeer_peerToJson (p : PeerInfo) (hlen : p.nodeId.bytes.length = 20)
    (hb : ∀ b ∈ p.nodeId.bytes, b < 256) (hport : p.port < 65536)
    (hseen : p.lastSeen = 0) (hexp : p.isExpired = false) :
    parsePeer (peerToJson p) = some p := by
  have hfs := fromString_toString p.nodeId hlen hb
  have hmod : ((p.port : Int) % 65536).toNat = p.port := by omega
  rcases p with ⟨ip, port, seen, nid, exp⟩
  simp only at hfs hmod
  subst hseen hexp
  simp [parsePeer, peerToJson, Json.lookup, List.find?, Json.asStr, Json.asInt, hfs, hmod]

/-- Parsing a list of serialized closest-node entries recovers the list. -/
theorem mapM_parsePeer : ∀ ps : List PeerInfo,
    (∀ p ∈ ps, p.nodeId.bytes.length = 20 ∧ (∀ b ∈ p.nodeId.bytes, b < 256) ∧
      p.port < 65536 ∧ p.lastSeen = 0 ∧ p.isExpired = false) →
    (ps.map peerToJson).mapM parsePeer = some ps
  | [], _ => rfl
  | p :: ps, h => by
    obtain ⟨h1, h2, h3, h4, h5⟩ := h p (List.mem_cons_self p ps)
    have hp := parsePeer_peerToJson p h1 h2 h3 h4 h5
    have hrest := mapM_parsePeer ps (fun q hq => h q (List.mem_cons_of_mem p hq))
    rw [List.map_cons, List.mapM_cons, hp, hrest]
    rfl

/-- C9 counterexample. The claim says serialize-then-parse returns a message
equal in all fields, each closest-node `PeerInfo` included. `tripMsg` carries
one closest node with `lastSeen = 5`; the wire form keeps only `ip`, `port`
and `nodeId`, so the reparsed message holds that node with `lastSeen = 0` and
is not equal to the original. -/
theorem roundTrip_drops_lastSeen :
    parseMsg (serializeMsg tripMsg) ≠ some tripMsg ∧
      parseMsg (serializeMsg tripMsg) =
        some ⟨.PING, NodeId.zero, NodeId.zero, "", [⟨"a", 1, 0, idOne, false⟩]⟩ :=
  ⟨by decide, by decide⟩

/-- C9 amended: serializing then parsing recovers the message exactly when
every closest-node entry already carries the transient defaults that the wire
format cannot transport — `lastSeen = 0` (epoch) and `isExpired = false` —
since only `ip`, `port` and `nodeId` of a closest node are serialized; all
other fields (`type`, `sender`, `target`, `value`) always round-trip, for
well-formed ids and a 16-bit port. -/
theorem roundTrip_of_default_transients (m : RPCMessage)
    (hs : m.sender.bytes.length = 20) (hsb : ∀ b ∈ m.sender.bytes, b < 256)
    (ht : m.target.bytes.length = 20) (htb : ∀ b ∈ m.target.bytes, b < 256)
    (hcn : ∀ p ∈ m.closestNodes, p.nodeId.bytes.length = 20 ∧
      (∀ b ∈ p.nodeId.bytes, b < 256) ∧ p.port < 65536 ∧ p.lastSeen = 0 ∧
      p.isExpired = false) :
    parseMsg (serializeMsg m) = some m := by
  rcases m with ⟨t, s, tg, v, cn⟩
  simp only at hs hsb ht htb hcn
  have hfs := fromString_toString s hs hsb
  have hft := fromString_toString tg ht htb
  have hmapM := mapM_parsePeer cn hcn
  have hloop : List.mapM.loop parsePeer (List.map peerToJson cn) [] = some cn := hmapM
  by_cases hv : v = "" <;> by_cases hc : cn = [] <;>
    cases t <;>
    simp [parseMsg, serializeMsg, Json.lookup, List.find?, Json.asStr, Json.asInt,
      Json.asArr, MsgType.ofInt, MsgType.toInt, hfs, hft, hmapM, hloop, hv, hc]

/-- Witness for the C9 amended theorem: a message with a non-empty value and
one closest node at the transient defaults round-trips exactly. -/
theorem roundTrip_of_default_transients_witness :
    parseMsg (serializeMsg okTripMsg) = some okTripMsg :=
  roundTrip_of_default_transients okTripMsg (by decide) (by decide) (by decide)
    (by decide) (by decide)

/-- `lexLt` is irreflexive. -/
theorem lexLt_irrefl : ∀ x : List Nat, lexLt x x = false
  | [] => rfl
  | a :: as => by simp [lexLt, lexLt_irrefl as]

/-- `lexLt` is transitive. -/
theorem lexLt_trans : ∀ x y z : List Nat,
    lexLt x y = true → lexLt y z = true → lexLt x z = true
  | [], [], _, hxy, _ => absurd hxy (by simp [lexLt])
  | [], _ :: _, [], _, hyz => absurd hyz (by simp [lexLt])
  | [], _ :: _, _ :: _, _, _ => rfl
  | _ :: _, [], _, hxy, _ => absurd hxy (by simp [lexLt])
  | _ :: _, _ :: _, [], _, hyz => absurd hyz (by simp [lexLt])
  | a :: as, b :: bs, c :: cs, hxy, hyz => by
    simp only [lexLt] at hxy hyz ⊢
    rcases Nat.lt_trichotomy a b with hab | hab | hab
    · rcases Nat.lt_trichotomy b c with hbc | hbc | hbc
      · rw [if_pos (Nat.lt_trans hab hbc)]
      · subst hbc
        rw [if_pos hab]
      · rw [if_neg (by omega), if_pos hbc] at hyz
        exact absurd hyz (by simp)
    · subst hab
      rw [if_neg (lt_irrefl a), if_neg (lt_irrefl a)] at hxy
      rcases Nat.lt_trichotomy a c with hac | hac | hac
      · rw [if_pos hac]
      · subst hac
        rw [if_neg (lt_irrefl a), if_neg (lt_irrefl a)] at hyz
        rw [if_neg (lt_irrefl a), if_neg (lt_irrefl a)]
        exact lexLt_trans as bs cs hxy hyz
      · rw [if_neg (by omega), if_pos hac] at hyz
        exact absurd hyz (by simp)
    · rw [if_neg (by omega), if_pos hab] at hxy
      exact absurd hxy (by simp)

/-- Trichotomy for `lexLt`. -/
theorem lexLt_tri : ∀ x y : List Nat,
    lexLt x y = true ∨ x = y ∨ lexLt y x = true
  | [], [] => Or.inr (Or.inl rfl)
  | [], _ :: _ => Or.inl rfl
  | _ :: _, [] => Or.inr (Or.inr rfl)
  | a :: as, b :: bs => by
    by_cases hab : a < b
    · exact Or.inl (by simp [lexLt, hab])
    · by_cases hba : b < a
      · exact Or.inr (Or.inr (by simp [lexLt, hba]))
      · have hev : a = b := by omega
        subst hev
        rcases lexLt_tri as bs with h | h | h
        · exact Or.inl (by simp [lexLt, h])
        · exact Or.inr (Or.inl (by rw [h]))
        · exact Or.inr (Or.inr (by simp [lexLt, h]))

/-- `foldl` form of the big-endian value with an arbitrary accumulator. -/
theorem beVal_foldl : ∀ (l : List Nat) (acc : Nat),
    List.foldl (fun a b => a * 256 + b) acc l = acc * 256 ^ l.length + beVal l
  | [], acc => by simp [beVal]
  | b :: l, acc => by
    rw [List.foldl_cons, beVal_foldl l (acc * 256 + b)]
    have hbv : beVal (b :: l) = b * 256 ^ l.length + beVal l := by
      have hb := beVal_foldl l b
      simp only [beVal, List.foldl_cons] at hb ⊢
      simpa using hb
    rw [hbv, List.length_cons]
    ring

/-- The big-endian value of a cons. -/
theorem beVal_cons (a : Nat) (l : List Nat) :
    beVal (a :: l) = a * 256 ^ l.length + beVal l := by
  simpa [beVal] using beVal_foldl l a

/-- Bounded bytes give a bounded big-endian value. -/
theorem beVal_lt : ∀ l : List Nat, (∀ b ∈ l, b < 256) → beVal l < 256 ^ l.length
  | [], _ => by simp [beVal]
  | b :: l, h => by
    have hb : b < 256 := h b (List.mem_cons_self b l)
    have hrest := beVal_lt l (fun x hx => h x (List.mem_cons_of_mem b hx))
    rw [beVal_cons, List.length_cons, pow_succ]
    nlinarith

/-- On equal-length bounded byte lists, `lexLt` implies strictly smaller
big-endian value: the byte order is the unsigned 160-bit order. -/
theorem lexLt_val : ∀ x y : List Nat, x.length = y.length →
    (∀ b ∈ x, b < 256) → (∀ b ∈ y, b < 256) →
    lexLt x y = true → beVal x < beVal y
  | [], [], _, _, _, h => by simp [lexLt] at h
  | a :: as, b :: bs, hlen, hx, hy, h => by
    have hlen' : as.length = bs.length := by simpa using hlen
    have ha : a < 256 := hx a (List.mem_cons_self a as)
    have hasb : ∀ c ∈ as, c < 256 := fun c hc => hx c (List.mem_cons_of_mem a hc)
    have hbsb : ∀ c ∈ bs, c < 256 := fun c hc => hy c (List.mem_cons_of_mem b hc)
    rw [beVal_cons, beVal_cons, hlen']
    by_cases hab : a < b
    · have h1 : beVal as < 256 ^ as.length := beVal_lt as hasb
      rw [hlen'] at h1
      nlinarith [pow_pos (by norm_num : (0:Nat) < 256) bs.length]
    · by_cases hba : b < a
      · simp [lexLt, hab, hba] at h
      · have hev : a = b := by omega
        subst hev
        simp only [lexLt, lt_irrefl, reduceIte] at h
        have := lexLt_val as bs hlen' hasb hbsb h
        omega

/-- On equal-length bounded byte lists, failing the strict comparison the
other way round means less-or-equal big-endian value. -/
theorem not_lexLt_le_val (x y : List Nat) (hlen : x.length = y.length)
    (hx : ∀ b ∈ x, b < 256) (hy : ∀ b ∈ y, b < 256)
    (h : lexLt y x = false) : beVal x ≤ beVal y := by
  rcases lexLt_tri x y with ht | ht | ht
  · exact le_of_lt (lexLt_val x y hlen hx hy ht)
  · rw [ht]
  · rw [ht] at h
    cases h

/-- Membership in a conditional append comes from the base or the chunk. -/
theorem mem_if_append {c : Prop} [Decidable c] {acc chunk : List PeerInfo} {p : PeerInfo}
    (h : p ∈ (if c then acc ++ chunk else acc)) : p ∈ acc ∨ p ∈ chunk := by
  split at h
  · exact List.mem_append.mp h
  · exact Or.inl h

/-- A peer found through `getD` lives in one of the buckets (an out-of-range
index yields the default bucket, which is empty). -/
theorem mem_getD_peers (buckets : List KBucket) (j : Nat) (p : PeerInfo)
    (h : p ∈ (buckets.getD j default).peers) : ∃ bkt ∈ buckets, p ∈ bkt.peers := by
  by_cases hj : j < buckets.length
  · have he : buckets.getD j default = buckets[j] := by
      rw [List.getD_eq_getElem?_getD, List.getElem?_eq_getElem hj]
      rfl
    rw [he] at h
    exact ⟨buckets[j], List.getElem_mem hj, h⟩
  · rw [List.getD_eq_default _ _ (le_of_not_lt hj)] at h
    exact absurd h (List.not_mem_nil p)

/-- Every peer produced by the gathering loop comes from the accumulator or
from one of the buckets. -/
theorem gather_mem (buckets : List KBucket) (start k : Nat) :
    ∀ (fuel off : Nat) (acc : List PeerInfo) (p : PeerInfo),
      p ∈ gatherClosest buckets start k off fuel acc →
      p ∈ acc ∨ ∃ bkt ∈ buckets, p ∈ bkt.peers
  | 0, _, _, _, h => Or.inl h
  | fuel + 1, off, acc, p, h => by
    simp only [gatherClosest] at h
    by_cases hcond : acc.length < k ∧ off < buckets.length
    · rw [if_pos hcond] at h
      rcases gather_mem buckets start k fuel (off + 1) _ p h with hacc | hb
      · rcases mem_if_append hacc with hacc1 | hchunkL
        · rcases mem_if_append hacc1 with hbase | hchunkR
          · exact Or.inl hbase
          · exact Or.inr (mem_getD_peers buckets (start + off) p hchunkR)
        · exact Or.inr (mem_getD_peers buckets (start - off) p hchunkL)
      · exact Or.inr hb
    · rw [if_neg hcond] at h
      exact Or.inl h

/-- Appending a chunk with nodeIds fresh to the base preserves nodeId
distinctness. -/
theorem nodup_map_append_chunk (acc chunk : List PeerInfo)
    (hacc : (acc.map PeerInfo.nodeId).Nodup) (hchunk : (chunk.map PeerInfo.nodeId).Nodup)
    (hdisj : ∀ p ∈ acc, ∀ q ∈ chunk, p.nodeId ≠ q.nodeId) :
    ((acc ++ chunk).map PeerInfo.nodeId).Nodup := by
  rw [List.map_append, List.nodup_append]
  refine ⟨hacc, hchunk, ?_⟩
  intro n hn1 hn2
  obtain ⟨p, hp, rfl⟩ := List.mem_map.mp hn1
  obtain ⟨q, hq, he⟩ := List.mem_map.mp hn2
  exact hdisj p hp q hq he.symm

/-- The gathering loop never collects two peers with the same nodeId, as long
as every bucket is duplicate-free and peers sit in the bucket their nodeId
maps to (`φ` is the placement function, `logDistance` from self in the
routing table). The band invariant says the accumulator holds only peers from
buckets strictly within `off` of `start`; each new offset touches only the
two buckets at exactly that distance. -/
theorem gather_nodup (buckets : List KBucket) (φ : NodeId → Nat) (start k : Nat)
    (hnodup : ∀ j, (((buckets.getD j default).peers).map PeerInfo.nodeId).Nodup)
    (hplace : ∀ j, ∀ p ∈ (buckets.getD j default).peers, φ p.nodeId = j) :
    ∀ (fuel off : Nat) (acc : List PeerInfo),
      (acc.map PeerInfo.nodeId).Nodup →
      (∀ p ∈ acc, φ p.nodeId < start + off ∧ start < φ p.nodeId + off) →
      ((gatherClosest buckets start k off fuel acc).map PeerInfo.nodeId).Nodup
  | 0, _, _, hacc, _ => hacc
  | fuel + 1, off, acc, hacc, hband => by
    simp only [gatherClosest]
    by_cases hcond : acc.length < k ∧ off < buckets.length
    · rw [if_pos hcond]
      have h1 : ((if start + off < buckets.length then
            acc ++ (buckets.getD (start + off) default).getAllPeers
          else acc).map PeerInfo.nodeId).Nodup ∧
          ∀ p ∈ (if start + off < buckets.length then
            acc ++ (buckets.getD (start + off) default).getAllPeers
          else acc),
            (φ p.nodeId < start + off ∧ start < φ p.nodeId + off) ∨
              φ p.nodeId = start + off := by
        split
        · constructor
          · refine nodup_map_append_chunk acc _ hacc (hnodup (start + off)) ?_
            intro p hp q hq heq
            have hbp := hband p hp
            have hqp := hplace (start + off) q hq
            rw [heq] at hbp
            omega
          · intro p hp
            rcases List.mem_append.mp hp with h | h
            · exact Or.inl (hband p h)
            · exact Or.inr (hplace (start + off) p h)
        · exact ⟨hacc, fun p hp => Or.inl (hband p hp)⟩
      have h2 : ((if 0 < off ∧ off ≤ start then
            (if start + off < buckets.length then
              acc ++ (buckets.getD (start + off) default).getAllPeers
            else acc) ++ (buckets.getD (start - off) default).getAllPeers
          else
            (if start + off < buckets.length then
              acc ++ (buckets.getD (start + off) default).getAllPeers
            else acc)).map PeerInfo.nodeId).Nodup ∧
          ∀ p ∈ (if 0 < off ∧ off ≤ start then
            (if start + off < buckets.length then
              acc ++ (buckets.getD (start + off) default).getAllPeers
            else acc) ++ (buckets.getD (start - off) default).getAllPeers
          else
            (if start + off < buckets.length then
              acc ++ (buckets.getD (start + off) default).getAllPeers
            else acc)),
            φ p.nodeId < start + (off + 1) ∧ start < φ p.nodeId + (off + 1) := by
        split
        case isTrue hc2 =>
          constructor
          · refine nodup_map_append_chunk _ _ h1.1 (hnodup (start - off)) ?_
            intro p hp q hq heq
            have hbp := h1.2 p hp
            have hqp := hplace (start - off) q hq
            rw [heq] at hbp
            omega
          · intro p hp
            rcases List.mem_append.mp hp with h | h
            · have := h1.2 p h
              omega
            · have := hplace (start - off) p h
              omega
        case isFalse hc2 =>
          refine ⟨h1.1, ?_⟩
          intro p hp
          have := h1.2 p hp
          omega
      exact gather_nodup buckets φ start k hnodup hplace fuel (off + 1) _ h2.1 h2.2
    · rw [if_neg hcond]
      exact hacc

/-- Byte-wise XOR of bounded byte lists is bounded. -/
theorem zipWith_xor_bounded : ∀ x y : List Nat,
    (∀ b ∈ x, b < 256) → (∀ b ∈ y, b < 256) →
    ∀ b ∈ List.zipWith Nat.xor x y, b < 256
  | [], _, _, _ => by simp
  | _ :: _, [], _, _ => by simp
  | a :: as, b :: bs, hx, hy => by
    intro c hc
    simp only [List.zipWith_cons_cons] at hc
    rcases List.mem_cons.mp hc with rfl | hc
    · have ha : a < 2 ^ 8 := hx a (List.mem_cons_self a as)
      have hb : b < 2 ^ 8 := hy b (List.mem_cons_self b bs)
      simpa using Nat.xor_lt_two_pow ha hb
    · exact zipWith_xor_bounded as bs
        (fun v hv => hx v (List.mem_cons_of_mem a hv))
        (fun v hv => hy v (List.mem_cons_of_mem b hv)) c hc

/-- C7. For every routing-table state whose buckets are duplicate-free,
well-formed and correctly placed (each peer in the bucket its log-distance
from self selects — the invariants `addPeer` maintains), and for every
well-formed target and every `k`: `findClosestPeers(target, k)` returns at
most `k` peers, sorted non-decreasing by the unsigned 160-bit value of the
XOR distance of each peer's nodeId to `target`, with no duplicate nodeIds. -/
theorem findClosestPeers_spec (rt : RoutingTable) (target : NodeId) (k : Nat)
    (htlen : target.bytes.length = 20) (htb : ∀ b ∈ target.bytes, b < 256)
    (hwf : ∀ bkt ∈ rt.buckets, ∀ p ∈ bkt.peers,
      p.nodeId.bytes.length = 20 ∧ ∀ b ∈ p.nodeId.bytes, b < 256)
    (hnodup : ∀ bkt ∈ rt.buckets, (bkt.peers.map PeerInfo.nodeId).Nodup)
    (hplace : ∀ i < rt.buckets.length, ∀ p ∈ (rt.buckets.getD i default).peers,
      rt.selfNodeId.logDistance p.nodeId = i) :
    (rt.findClosestPeers target k).length ≤ k ∧
      (rt.findClosestPeers target k).Pairwise (fun a b =>
        beVal (a.nodeId.distanceTo target).bytes ≤
          beVal (b.nodeId.distanceTo target).bytes) ∧
      ((rt.findClosestPeers target k).map PeerInfo.nodeId).Nodup := by
  have hnodupAll : ∀ j, (((rt.buckets.getD j default).peers).map PeerInfo.nodeId).Nodup := by
    intro j
    by_cases hj : j < rt.buckets.length
    · have he : rt.buckets.getD j default = rt.buckets[j] := by
        rw [List.getD_eq_getElem?_getD, List.getElem?_eq_getElem hj]
        rfl
      rw [he]
      exact hnodup _ (List.getElem_mem hj)
    · rw [List.getD_eq_default _ _ (le_of_not_lt hj)]
      exact List.nodup_nil
  have hplaceAll : ∀ j, ∀ p ∈ (rt.buckets.getD j default).peers,
      rt.selfNodeId.logDistance p.nodeId = j := by
    intro j p hp
    by_cases hj : j < rt.buckets.length
    · exact hplace j hj p hp
    · rw [List.getD_eq_default _ _ (le_of_not_lt hj)] at hp
      exact absurd hp (List.not_mem_nil p)
  have hcand_mem : ∀ p ∈ gatherClosest rt.buckets (rt.selfNodeId.logDistance target) k 0
      rt.buckets.length [], ∃ bkt ∈ rt.buckets, p ∈ bkt.peers := by
    intro p hp
    rcases gather_mem rt.buckets (rt.selfNodeId.logDistance target) k
        rt.buckets.length 0 [] p hp with h | h
    · exact absurd h (List.not_mem_nil p)
    · exact h
  have hdistwf : ∀ p ∈ gatherClosest rt.buckets (rt.selfNodeId.logDistance target) k 0
      rt.buckets.length [],
      (p.nodeId.distanceTo target).bytes.length = 20 ∧
        ∀ b ∈ (p.nodeId.distanceTo target).bytes, b < 256 := by
    intro p hp
    obtain ⟨bkt, hbkt, hpb⟩ := hcand_mem p hp
    obtain ⟨hplen, hpb256⟩ := hwf bkt hbkt p hpb
    constructor
    · simp [NodeId.distanceTo, List.length_zipWith, hplen, htlen]
    · exact zipWith_xor_bounded _ _ hpb256 htb
  have hcnodup : ((gatherClosest rt.buckets (rt.selfNodeId.logDistance target) k 0
      rt.buckets.length []).map PeerInfo.nodeId).Nodup :=
    gather_nodup rt.buckets (fun n => rt.selfNodeId.logDistance n)
      (rt.selfNodeId.logDistance target) k hnodupAll hplaceAll rt.buckets.length 0 []
      List.nodup_nil (fun p hp => absurd hp (List.not_mem_nil p))
  have htrans : ∀ a b c : PeerInfo, (! distLtB target b a) → (! distLtB target c b) →
      (! distLtB target c a) := by
    intro a b c hab hbc
    simp only [distLtB, Bool.not_eq_true'] at hab hbc ⊢
    by_contra hca
    rw [Bool.not_eq_false] at hca
    rcases lexLt_tri (a.nodeId.distanceTo target).bytes
        (b.nodeId.distanceTo target).bytes with h | h | h
    · have := lexLt_trans _ _ _ hca h
      rw [hbc] at this
      cases this
    · rw [h] at hca
      rw [hca] at hbc
      cases hbc
    · rw [h] at hab
      cases hab
  have htotal : ∀ a b : PeerInfo, (! distLtB target b a) || (! distLtB target a b) := by
    intro a b
    simp only [distLtB]
    by_cases h : lexLt (b.nodeId.distanceTo target).bytes
        (a.nodeId.distanceTo target).bytes = true
    · have h2 : lexLt (a.nodeId.distanceTo target).bytes
          (b.nodeId.distanceTo target).bytes = false := by
        by_contra hx
        rw [Bool.not_eq_false] at hx
        have h3 := lexLt_trans _ _ _ h hx
        rw [lexLt_irrefl] at h3
        cases h3
      simp [h2]
    · have h2 : lexLt (b.nodeId.distanceTo target).bytes
          (a.nodeId.distanceTo target).bytes = false := by
        simpa using h
      simp [h2]
  have hsorted := List.sorted_mergeSort htrans htotal
    (gatherClosest rt.buckets (rt.selfNodeId.logDistance target) k 0 rt.buckets.length [])
  have hgoal : rt.findClosestPeers target k =
      ((gatherClosest rt.buckets (rt.selfNodeId.logDistance target) k 0
        rt.buckets.length []).mergeSort (fun a b => ! distLtB target b a)).take k := rfl
  rw [hgoal]
  refine ⟨?_, ?_, ?_⟩
  · simp [List.length_take]
  · have hp1 : (((gatherClosest rt.buckets (rt.selfNodeId.logDistance target) k 0
        rt.buckets.length []).mergeSort (fun a b => ! distLtB target b a)).take k).Pairwise
        (fun a b => (! distLtB target b a) = true) :=
      List.Pairwise.sublist (List.take_sublist _ _) hsorted
    refine List.Pairwise.imp_of_mem ?_ hp1
    intro a b ha hb hle
    have ha2 : a ∈ gatherClosest rt.buckets (rt.selfNodeId.logDistance target) k 0
        rt.buckets.length [] :=
      List.mem_mergeSort.mp ((List.take_sublist _ _).mem ha)
    have hb2 : b ∈ gatherClosest rt.buckets (rt.selfNodeId.logDistance target) k 0
        rt.buckets.length [] :=
      List.mem_mergeSort.mp ((List.take_sublist _ _).mem hb)
    obtain ⟨halen, hab⟩ := hdistwf a ha2
    obtain ⟨hblen, hbb⟩ := hdistwf b hb2
    rw [Bool.not_eq_true'] at hle
    exact not_lexLt_le_val _ _ (by rw [halen, hblen]) hab hbb hle
  · rw [List.map_take]
    refine List.Nodup.sublist (List.take_sublist _ _) ?_
    have hperm := (List.mergeSort_perm (gatherClosest rt.buckets
      (rt.selfNodeId.logDistance target) k 0 rt.buckets.length [])
      (fun a b => ! distLtB target b a)).map PeerInfo.nodeId
    exact hperm.nodup_iff.mpr hcnodup

/-- Witness for C7 on a small concrete table: two peers in their correct
buckets, target zero, `k = 20`. -/
theorem findClosestPeers_spec_witness :
    (smallTable.findClosestPeers NodeId.zero 20).length ≤ 20 ∧
      (smallTable.findClosestPeers NodeId.zero 20).Pairwise (fun a b =>
        beVal (a.nodeId.distanceTo NodeId.zero).bytes ≤
          beVal (b.nodeId.distanceTo NodeId.zero).bytes) ∧
      ((smallTable.findClosestPeers NodeId.zero 20).map PeerInfo.nodeId).Nodup :=
  findClosestPeers_spec smallTable NodeId.zero 20 (by decide) (by decide)
    (by decide) (by decide) (by decide)
